import Mathlib

/-!
Verification of the CSV batch-processing toolkit
(`count_csv_rows.py`, `extract_distinct_values.py`, `split_by_language.py`).

Strings are modelled as `List Char` (named `V` below) so that all definitions
are executable and decidable.  Each definition carries a note saying which
Python function or library behaviour it embeds.
-/

namespace CsvKit

/-- Strings of the embedding: Python `str` values as lists of characters. -/
abbrev V := List Char

/-- Python's `str.strip()` whitespace set (ASCII part): space, tab, newline,
carriage return, vertical tab, form feed. -/
def pyIsSpace (c : Char) : Bool :=
  c = ' ' || c = '\t' || c = '\n' || c = '\r' || c = '\x0b' || c = '\x0c'

/-- Embeds Python `str.strip()`: drop whitespace from both ends. -/
def pyStrip (s : V) : V :=
  ((s.dropWhile pyIsSpace).reverse.dropWhile pyIsSpace).reverse

/-! ## CSV parsing (`csv.reader`, default dialect)

`count_csv_rows.py` delegates row splitting to Python's `csv.reader`.
We embed the reader's state machine for the default dialect
(delimiter `,`, quote char `"`, doubled-quote escaping, non-strict mode)
with `'\n'` as the record terminator. -/

/-- Parser states of the `csv.reader` state machine. -/
inductive CsvMode
  | startRecord  -- at the beginning of a record (no characters consumed yet)
  | startField   -- just after a delimiter, at the beginning of a field
  | unquoted     -- inside an unquoted field
  | quoted       -- inside a quoted field
  | afterQuote   -- just after the closing quote of a quoted field
  deriving DecidableEq

/-- One record is a list of fields. -/
abbrev CsvRecord := List V

/-- The `csv.reader` state machine.  Arguments: mode, remaining input,
current field (reversed), current record (reversed), records so far
(reversed).  Returns the list of parsed records. -/
def csvRun : CsvMode → List Char → List Char → CsvRecord → List CsvRecord →
    List CsvRecord
  | .startRecord, [], _, _, recs => recs.reverse
  | .startRecord, c :: cs, fld, rec, recs =>
      if c = '\n' then csvRun .startRecord cs [] [] ([] :: recs)
      else if c = ',' then csvRun .startField cs [] ([] :: rec) recs
      else if c = '"' then csvRun .quoted cs fld rec recs
      else csvRun .unquoted cs (c :: fld) rec recs
  | .startField, [], _, rec, recs => ((([] : V) :: rec).reverse :: recs).reverse
  | .startField, c :: cs, fld, rec, recs =>
      if c = '\n' then csvRun .startRecord cs [] [] ((([] : V) :: rec).reverse :: recs)
      else if c = ',' then csvRun .startField cs [] ([] :: rec) recs
      else if c = '"' then csvRun .quoted cs fld rec recs
      else csvRun .unquoted cs (c :: fld) rec recs
  | .unquoted, [], fld, rec, recs => ((fld.reverse :: rec).reverse :: recs).reverse
  | .unquoted, c :: cs, fld, rec, recs =>
      if c = '\n' then csvRun .startRecord cs [] [] ((fld.reverse :: rec).reverse :: recs)
      else if c = ',' then csvRun .startField cs [] (fld.reverse :: rec) recs
      else csvRun .unquoted cs (c :: fld) rec recs
  | .quoted, [], fld, rec, recs => ((fld.reverse :: rec).reverse :: recs).reverse
  | .quoted, c :: cs, fld, rec, recs =>
      if c = '"' then
        match cs with
        | [] => ((fld.reverse :: rec).reverse :: recs).reverse
        | c' :: cs' =>
            if c' = '"' then csvRun .quoted cs' ('"' :: fld) rec recs
            else csvRun .afterQuote (c' :: cs') fld rec recs
      else csvRun .quoted cs (c :: fld) rec recs
  | .afterQuote, [], fld, rec, recs => ((fld.reverse :: rec).reverse :: recs).reverse
  | .afterQuote, c :: cs, fld, rec, recs =>
      if c = '\n' then csvRun .startRecord cs [] [] ((fld.reverse :: rec).reverse :: recs)
      else if c = ',' then csvRun .startField cs [] (fld.reverse :: rec) recs
      else csvRun .unquoted cs (c :: fld) rec recs

/-- Parse a whole CSV text into its records (`csv.reader` behaviour). -/
def csvParse (s : List Char) : List CsvRecord :=
  csvRun .startRecord s [] [] []

/-- Embeds `count_csv_rows` (`count_csv_rows.py`, success path):
`sum(1 for row in reader)`, the number of logical records. -/
def count_csv_rows (s : List Char) : Nat :=
  (csvParse s).length

/-! ## A CSV writer used to state the row-counting property

Quote-all serialisation: every field is enclosed in double quotes with inner
quotes doubled, fields separated by `,`, each record terminated by `'\n'`.
Fields may contain any characters, including literal newlines. -/

/-- Double every `"` in a field body (standard CSV escaping). -/
def escQuote : List Char → List Char
  | [] => []
  | c :: cs => if c = '"' then '"' :: '"' :: escQuote cs else c :: escQuote cs

/-- Serialise one field, always quoted. -/
def writeField (f : V) : List Char :=
  '"' :: (escQuote f ++ ['"'])

/-- Serialise the remaining fields of a record, each preceded by `,`. -/
def joinFields : List V → List Char
  | [] => []
  | f :: fs => ',' :: writeField f ++ joinFields fs

/-- Serialise one record (no terminator). -/
def writeRecord : CsvRecord → List Char
  | [] => []
  | f :: fs => writeField f ++ joinFields fs

/-- Serialise a list of records, each terminated by `'\n'`. -/
def writeCsv : List CsvRecord → List Char
  | [] => []
  | r :: rs => writeRecord r ++ '\n' :: writeCsv rs

/-! ## Cells

A cell as seen by the Python code: either a string, or a non-string value
(`None` supplied by `csv.DictReader` for a missing field, `NaN` supplied by
`pandas` for an empty cell, a number, ...). -/

/-- A cell value: `some s` is the string `s`; `none` is any non-string
(Python `None`, pandas `NaN`, ...). -/
abbrev Cell := Option V

/-! ## `extract_distinct_values.py`: the scan -/

/-- Embeds the `csv.DictReader` lookup `row[column_name]`: the field of
`record` at the position of `col` in `headers`, or `None` (`restval`) when the
record has fewer fields than the header.  Header names are assumed unique
(the spec's stated assumption), so the first occurrence is the one used. -/
def dictGet (headers : List V) (record : List V) (col : V) : Cell :=
  record.get? (headers.findIdx (fun h => h == col))

/-- Python-set insertion: `distinct_values.add(value)` modelled as an
insertion-ordered duplicate-free list (the model fixes an iteration order
where the Python `set` leaves it unspecified). -/
def addSet (l : List V) (v : V) : List V :=
  if v ∈ l then l else l ++ [v]

/-- `Counter` increment `value_counts[value] += 1`: bump the entry in place,
or append a fresh entry with count 1 (dicts preserve insertion order). -/
def incr : List (V × Nat) → V → List (V × Nat)
  | [], v => [(v, 1)]
  | (k, n) :: rest, v => if k = v then (k, n + 1) :: rest else (k, n) :: incr rest v

/-- The loop body of `extract_distinct_values`:
`if value: value = value.strip(); if value: add value; count value`. -/
def scanStep (acc : List V × List (V × Nat)) (cell : Cell) : List V × List (V × Nat) :=
  match cell with
  | none => acc
  | some s =>
      if s = [] then acc
      else
        let t := pyStrip s
        if t = [] then acc else (addSet acc.1 t, incr acc.2 t)

/-- The scan of `extract_distinct_values` over the target column's cells. -/
def scanCells (cells : List Cell) : List V × List (V × Nat) :=
  cells.foldl scanStep ([], [])

/-- The full scan of `extract_distinct_values` over the data records:
each record contributes its target-column cell. -/
def extractScan (headers : List V) (records : List (List V)) (col : V) :
    List V × List (V × Nat) :=
  scanCells (records.map (fun r => dictGet headers r col))

/-- The value a cell contributes to the scan: its trimmed content when that
is a non-empty string, nothing otherwise. -/
def kvF (cell : Cell) : Option V :=
  match cell with
  | none => none
  | some s => if pyStrip s = [] then none else some (pyStrip s)

/-- The multiset of values that the scan keeps: for each record, the trimmed
target-column value when it is a non-empty string after trimming. -/
def keptVals (headers : List V) (records : List (List V)) (col : V) : List V :=
  (records.map (fun r => dictGet headers r col)).filterMap kvF

/-! ## `extract_distinct_values.py`: messages, extraction and `main` -/

/-- The printed messages of `extract_distinct_values.py`, structurally. -/
inductive Msg
  | colNotFound (requested : V)          -- "Error: Column '...' not found!"
  | availableCols (shown : List V)       -- "Available columns (first 10): ..."
  | moreColumns (n : Nat)                -- "... and {n} more columns"
  | readHeadersError                     -- "Error reading headers: ..."
  | columnsTotal (n : Nat)               -- "Available columns ({n} total):"
  | columnEntry (idx : Nat) (name : V)   -- "{i}. {header}"
  deriving DecidableEq

/-- Embeds `extract_distinct_values(file_path, column_name, delimiter)`:
validate the column against `reader.fieldnames`, then scan.  Returns the
result (`None, None` becomes `none`) together with the printed messages. -/
def extract_distinct_values (headers : List V) (records : List (List V)) (col : V) :
    Option (List V × List (V × Nat)) × List Msg :=
  if col ∈ headers then (some (extractScan headers records col), [])
  else
    (none,
      [Msg.colNotFound col, Msg.availableCols (headers.take 10)]
        ++ (if headers.length > 10 then [Msg.moreColumns (headers.length - 10)] else []))

/-- Non-increasing-count comparison used by `Counter.most_common()`. -/
def countGe (a b : V × Nat) : Prop := b.2 ≤ a.2

instance : DecidableRel countGe := fun a b => inferInstanceAs (Decidable (b.2 ≤ a.2))

instance : IsTotal (V × Nat) countGe := ⟨fun a b => Nat.le_total b.2 a.2⟩

instance : IsTrans (V × Nat) countGe := ⟨fun _ _ _ h₁ h₂ => Nat.le_trans h₂ h₁⟩

/-- Embeds `Counter.most_common()`: a stable sort of the counter's items by
non-increasing count (CPython's `sorted` is stable; insertion order of the
items is first-occurrence order). -/
def mostCommon (vc : List (V × Nat)) : List (V × Nat) :=
  vc.insertionSort countGe

/-- Python's string comparison: lexicographic on code points (`≤`). -/
def lexLe (a b : V) : Prop := a ≤ b

instance : DecidableRel lexLe := fun a b => inferInstanceAs (Decidable (a ≤ b))

/-- Value comparison used by `sorted(value_counts.items(), key=lambda x: x[0])`. -/
def keyLe (a b : V × Nat) : Prop := lexLe a.1 b.1

instance : DecidableRel keyLe := fun a b => inferInstanceAs (Decidable (lexLe a.1 b.1))

/-- Embeds `sorted(value_counts.items(), key=lambda x: x[0])`. -/
def sortByValue (vc : List (V × Nat)) : List (V × Nat) :=
  vc.insertionSort keyLe

/-- Embeds `sorted(distinct_values)` (alphabetical listing without counts). -/
def sortValues (dv : List V) : List V :=
  dv.insertionSort lexLe

/-- The `results` list of `main` in the `--count` branch:
`sorted(value_counts.items(), key=lambda x: x[0])` with `--sort`,
`value_counts.most_common()` without. -/
def mainResultsCount (sortFlag : Bool) (vc : List (V × Nat)) : List (V × Nat) :=
  if sortFlag then sortByValue vc else mostCommon vc

/-- The structured output lines of `main` (summary header, total line,
separator, then one entry per result). -/
inductive OutLine
  | header (col : V) (withCounts : Bool)
  | total (n : Nat)
  | separator
  | entryCount (n : Nat) (v : V)
  | entryVal (v : V)
  deriving DecidableEq

/-- Embeds the `output_lines` construction of `main`
(`extract_distinct_values.py`): both branches emit the summary header, the
`Total distinct values: len(distinct_values)` line and a separator, then the
entries.  In the no-count/no-sort branch the Python code iterates
`list(distinct_values)` — a `set` whose order is unspecified; the model uses
the insertion-ordered representative. -/
def buildOutputLines (col : V) (countFlag sortFlag : Bool)
    (dv : List V) (vc : List (V × Nat)) : List OutLine :=
  if countFlag then
    OutLine.header col true :: OutLine.total dv.length :: OutLine.separator ::
      (mainResultsCount sortFlag vc).map (fun p => OutLine.entryCount p.2 p.1)
  else
    OutLine.header col false :: OutLine.total dv.length :: OutLine.separator ::
      (if sortFlag then sortValues dv else dv).map OutLine.entryVal

/-- Result of one `main` run of `extract_distinct_values.py` (extraction
path): exit code, the output file written (if any), and the printed
messages. -/
structure MainOut where
  exitCode : Nat
  written : Option (List OutLine)
  msgs : List Msg
  deriving DecidableEq

/-- Embeds `main` of `extract_distinct_values.py` from the point where the
file is resolved and readable: extract, and on failure return exit code 1
before any output is produced; on success build the output lines and write
them to the output file when `--output` was given. -/
def mainRun (countFlag sortFlag : Bool) (outputFile : Bool)
    (col : V) (headers : List V) (records : List (List V)) : MainOut :=
  match extract_distinct_values headers records col with
  | (none, msgs) => { exitCode := 1, written := none, msgs := msgs }
  | (some (dv, vc), msgs) =>
      let lines := buildOutputLines col countFlag sortFlag dv vc
      if outputFile then { exitCode := 0, written := some lines, msgs := msgs }
      else { exitCode := 0, written := none, msgs := msgs }

/-! ## `extract_distinct_values.py`: `--list-columns` and header reading -/

/-- Embeds `get_csv_headers`: read the header row and strip each name; on
*any* exception print `Error reading headers: ...` and return `[]`.  The file
read itself is external; it is passed in as `readResult` (`Except`). -/
def get_csv_headers (readResult : Except Unit (List V)) : List V × List Msg :=
  match readResult with
  | .ok headers => (headers.map pyStrip, [])
  | .error _ => ([], [Msg.readHeadersError])

/-- Embeds the `--list-columns` branch of `main`: call `get_csv_headers`,
print the `Available columns ({len} total):` banner and the numbered
entries, and `return 0` — unconditionally. -/
def mainListColumns (readResult : Except Unit (List V)) : Nat × List Msg :=
  let (headers, msgs) := get_csv_headers readResult
  (0,
    msgs ++ Msg.columnsTotal headers.length ::
      (headers.enumFrom 1).map (fun p => Msg.columnEntry p.1 p.2))

/-! ## `find_catalog_product_file`: file discovery -/

/-- A file known to the (abstract) filesystem: its glob-reported path and its
creation time (`os.path.getctime`). -/
structure FileEnt where
  path : V
  ctime : Nat
  deriving DecidableEq

/-- The ordered glob patterns of `find_catalog_product_file`. -/
def searchPatterns : List V :=
  [ "export_catalog_product*.csv".data
  , "**/export/catalog_product*.csv".data
  , "**/var/export/catalog_product*.csv".data
  , "export_catalog_product.csv".data
  , "**/export_catalog_product.csv".data
  , "catalog_product*.csv".data
  , "**/catalog_product*.csv".data ]

/-- Python's `str.lower()` (per-character). -/
def pyLower (s : V) : V := s.map Char.toLower

/-- Python's `needle in haystack` on strings: contiguous-substring test. -/
def pySubstr (needle haystack : V) : Bool := decide (needle <:+: haystack)

/-- The filter of `find_catalog_product_file`:
`'test' not in f.lower() and 'sample' not in f.lower()` — note that `f` is
the whole glob-reported path, not just the file name. -/
def notTestFile (f : FileEnt) : Bool :=
  !pySubstr "test".data (pyLower f.path) && !pySubstr "sample".data (pyLower f.path)

/-- Python's `max(files, key=os.path.getctime)` on a non-empty list: the
first entry of maximal creation time (`max` keeps the current value on
ties). -/
def pyMaxCtime (f : FileEnt) (fs : List FileEnt) : FileEnt :=
  fs.foldl (fun acc g => if acc.ctime < g.ctime then g else acc) f

/-- The per-pattern selection of `find_catalog_product_file`: filter out
test/sample paths; if anything survives pick the most recent survivor, else
fall back to the most recent of all matches. -/
def selectFromMatches (files : List FileEnt) : Option FileEnt :=
  match files.filter notTestFile with
  | g :: gs => some (pyMaxCtime g gs)
  | [] =>
      match files with
      | f :: fs => some (pyMaxCtime f fs)
      | [] => none

/-- The `for pattern in search_patterns` loop of `find_catalog_product_file`:
the first pattern with any glob match decides the outcome. -/
def findLoop (glob : V → List FileEnt) : List V → Option FileEnt
  | [] => none
  | p :: ps =>
      match glob p with
      | [] => findLoop glob ps
      | f :: fs => selectFromMatches (f :: fs)

/-- Embeds `find_catalog_product_file`: try the patterns in order; return
`None` when no pattern matches.  `glob` is the external `glob.glob`
collaborator. -/
def find_catalog_product_file (glob : V → List FileEnt) : Option FileEnt :=
  findLoop glob searchPatterns

/-- The file *name* of a path: the part after the last `/`. -/
def baseName (p : V) : V :=
  ((p.reverse.takeWhile (fun c => c ≠ '/')).reverse)

/-- Name-based variant of the test/sample filter, following the claim's
words ("files whose name contains"). -/
def keepByName (f : FileEnt) : Bool :=
  !pySubstr "test".data (pyLower (baseName f.path))
    && !pySubstr "sample".data (pyLower (baseName f.path))

/-- The pattern loop with the name-based filter. -/
def findLoopNameSpec (glob : V → List FileEnt) : List V → Option FileEnt
  | [] => none
  | p :: ps =>
      match glob p with
      | [] => findLoopNameSpec glob ps
      | f :: fs =>
          match (f :: fs).filter keepByName with
          | g :: gs => some (pyMaxCtime g gs)
          | [] => some (pyMaxCtime f fs)

/-- Modelled from the spec's words for comparison (claim C8 speaks of "files
whose *name* contains 'test' or 'sample'"): the same discovery algorithm but
filtering on the base name instead of the whole path. -/
def find_catalog_product_file_nameSpec (glob : V → List FileEnt) : Option FileEnt :=
  findLoopNameSpec glob searchPatterns

/-! ## `split_by_language.py` -/

/-- Embeds `detect_lang_safe` (`split_by_language.py`): `"empty"` for
non-strings and blank strings, the detected code otherwise, `"unknown"` when
detection throws.  `detect` is the external `langdetect.detect` collaborator
(`none` models a raised `LangDetectException`). -/
def detect_lang_safe (detect : V → Option V) (text : Cell) : V :=
  match text with
  | none => "empty".data
  | some s =>
      if pyStrip s = [] then "empty".data
      else
        match detect s with
        | some code => code
        | none => "unknown".data

/-- A pandas row as a mapping from column name to cell (columns are unique
after `pd.read_csv`). -/
abbrev Row := List (V × Cell)

/-- The column names of a row. -/
def rowKeys (r : Row) : List V := r.map Prod.fst

/-- Embeds `df[col]` on one row: the cell of the first column named `col`. -/
def getCell (r : Row) (col : V) : Cell :=
  match r.find? (fun p => p.1 == col) with
  | some p => p.2
  | none => none

/-- Embeds `df[col] = ...` on one row: overwrite an existing column in
place, else append a new one (pandas assignment semantics). -/
def setCol (r : Row) (col : V) (c : Cell) : Row :=
  if col ∈ rowKeys r then r.map (fun p => if p.1 == col then (p.1, c) else p)
  else r ++ [(col, c)]

/-- Embeds `df.drop(columns=[col])` on one row. -/
def dropCol (r : Row) (col : V) : Row :=
  r.filter (fun p => p.1 != col)

/-- An in-memory pandas DataFrame: column names plus rows. -/
structure Frame where
  cols : List V
  rows : List Row

/-- The literal label `"it"`. -/
def itLabel : V := "it".data

/-- The literal label `"empty"`. -/
def emptyLabel : V := "empty".data

/-- The name of the transient classification column. -/
def langCol : V := "lang".data

/-- Embeds `main` of `split_by_language.py`: check the designated column,
classify every row into a fresh `lang` column, filter the three partitions
and drop the `lang` column from each.  `none` models the raised
`ValueError` when the column is absent. -/
def split_by_language (detect : V → Option V) (col : V) (f : Frame) :
    Option (List Row × List Row × List Row) :=
  if col ∈ f.cols then
    let tagged := f.rows.map (fun r =>
      setCol r langCol (some (detect_lang_safe detect (getCell r col))))
    let dfIt := (tagged.filter (fun r => getCell r langCol == some itLabel)).map
      (fun r => dropCol r langCol)
    let dfOther := (tagged.filter (fun r =>
      getCell r langCol != some itLabel && getCell r langCol != some emptyLabel)).map
      (fun r => dropCol r langCol)
    let dfEmpty := (tagged.filter (fun r => getCell r langCol == some emptyLabel)).map
      (fun r => dropCol r langCol)
    some (dfIt, dfOther, dfEmpty)
  else none

/-- The per-row classification label of the splitter: `detect_lang_safe`
applied to the designated column's cell. -/
def rowLabel (detect : V → Option V) (col : V) (r : Row) : V :=
  detect_lang_safe detect (getCell r col)


/-! ### Round-trip lemmas for the reader -/

lemma csvRun_quoted_char {c : Char} (h : c ≠ '"') (cs fld rec recs) :
    csvRun .quoted (c :: cs) fld rec recs = csvRun .quoted cs (c :: fld) rec recs := by
  rw [csvRun.eq_def]; simp [h]

lemma csvRun_quoted_close {c : Char} (h : c ≠ '"') (cs fld rec recs) :
    csvRun .quoted ('"' :: c :: cs) fld rec recs = csvRun .afterQuote (c :: cs) fld rec recs := by
  rw [csvRun.eq_def]; simp [h]

lemma csvRun_quoted_dquote (cs fld rec recs) :
    csvRun .quoted ('"' :: '"' :: cs) fld rec recs = csvRun .quoted cs ('"' :: fld) rec recs :=
  rfl

/-- Scanning an escaped field body inside quotes accumulates exactly the field
and stops at the closing quote (whose follower is not a quote). -/
lemma csvRun_escQuote (f : V) : ∀ {d : Char}, d ≠ '"' → ∀ (rest fld rec recs),
    csvRun .quoted (escQuote f ++ '"' :: d :: rest) fld rec recs
      = csvRun .afterQuote (d :: rest) (f.reverse ++ fld) rec recs := by
  induction f with
  | nil =>
      intro d hd rest fld rec recs
      simpa using csvRun_quoted_close hd rest fld rec recs
  | cons c f ih =>
      intro d hd rest fld rec recs
      by_cases hc : c = '"'
      · subst hc
        have : escQuote ('"' :: f) ++ '"' :: d :: rest
            = '"' :: '"' :: (escQuote f ++ '"' :: d :: rest) := by
          simp [escQuote]
        rw [this, csvRun_quoted_dquote, ih hd]
        simp
      · have : escQuote (c :: f) ++ '"' :: d :: rest
            = c :: (escQuote f ++ '"' :: d :: rest) := by
          simp [escQuote, hc]
        rw [this, csvRun_quoted_char hc, ih hd]
        simp

/-- The text following a serialised record always starts with `,` or `\n`,
never with a quote. -/
lemma joinFields_head (gs : List V) (rest : List Char) :
    ∃ d tail, joinFields gs ++ '\n' :: rest = d :: tail ∧ d ≠ '"' := by
  cases gs with
  | nil => exact ⟨'\n', rest, by simp [joinFields], by decide⟩
  | cons g gs =>
      exact ⟨',', writeField g ++ joinFields gs ++ '\n' :: rest, by simp [joinFields], by decide⟩

/-- Scanning the remaining serialised fields of a record from the
`afterQuote` state appends them all and closes the record. -/
lemma csvRun_joinFields : ∀ (fs : List V) (fld : List Char) (rec : CsvRecord)
    (recs : List CsvRecord) (rest : List Char),
    csvRun .afterQuote (joinFields fs ++ '\n' :: rest) fld rec recs
      = csvRun .startRecord rest [] [] ((fs.reverse ++ fld.reverse :: rec).reverse :: recs) := by
  intro fs
  induction fs with
  | nil =>
      intro fld rec recs rest
      show csvRun .afterQuote ('\n' :: rest) fld rec recs = _
      rfl
  | cons g gs ih =>
      intro fld rec recs rest
      have h1 : joinFields (g :: gs) ++ '\n' :: rest
          = ',' :: (writeField g ++ (joinFields gs ++ '\n' :: rest)) := by
        simp [joinFields]
      rw [h1]
      have h2 : csvRun .afterQuote (',' :: (writeField g ++ (joinFields gs ++ '\n' :: rest)))
            fld rec recs
          = csvRun .startField (writeField g ++ (joinFields gs ++ '\n' :: rest))
            [] (fld.reverse :: rec) recs := rfl
      rw [h2]
      have h3 : writeField g ++ (joinFields gs ++ '\n' :: rest)
          = '"' :: (escQuote g ++ '"' :: (joinFields gs ++ '\n' :: rest)) := by
        simp [writeField]
      rw [h3]
      have h4 : csvRun .startField ('"' :: (escQuote g ++ '"' :: (joinFields gs ++ '\n' :: rest)))
            [] (fld.reverse :: rec) recs
          = csvRun .quoted (escQuote g ++ '"' :: (joinFields gs ++ '\n' :: rest))
            [] (fld.reverse :: rec) recs := rfl
      rw [h4]
      obtain ⟨d, tail, heq, hd⟩ := joinFields_head gs rest
      rw [heq, csvRun_escQuote g hd, ← heq, ih]
      simp

/-- Scanning a serialised list of records from the start state recovers the
records. -/
lemma csvRun_writeCsv : ∀ (rows : List CsvRecord) (recs : List CsvRecord),
    csvRun .startRecord (writeCsv rows) [] [] recs = recs.reverse ++ rows := by
  intro rows
  induction rows with
  | nil => intro recs; simp [writeCsv, csvParse, csvRun]
  | cons r rows ih =>
      intro recs
      cases r with
      | nil =>
          have h1 : writeCsv ([] :: rows) = '\n' :: writeCsv rows := by
            simp [writeCsv, writeRecord]
          rw [h1]
          have h2 : csvRun .startRecord ('\n' :: writeCsv rows) [] [] recs
              = csvRun .startRecord (writeCsv rows) [] [] ([] :: recs) := rfl
          rw [h2, ih]
          simp
      | cons f fs =>
          have h1 : writeCsv ((f :: fs) :: rows)
              = '"' :: (escQuote f ++ '"' :: (joinFields fs ++ '\n' :: writeCsv rows)) := by
            simp [writeCsv, writeRecord, writeField]
          rw [h1]
          have h2 : csvRun .startRecord
                ('"' :: (escQuote f ++ '"' :: (joinFields fs ++ '\n' :: writeCsv rows))) [] [] recs
              = csvRun .quoted (escQuote f ++ '"' :: (joinFields fs ++ '\n' :: writeCsv rows))
                [] [] recs := rfl
          rw [h2]
          obtain ⟨d, tail, heq, hd⟩ := joinFields_head fs (writeCsv rows)
          rw [heq, csvRun_escQuote f hd, ← heq, csvRun_joinFields, ih]
          simp

/-- Full round trip: parsing a serialised table recovers it record by record. -/
lemma csvParse_writeCsv (rows : List CsvRecord) : csvParse (writeCsv rows) = rows := by
  simpa using csvRun_writeCsv rows []

/-- C1: for every CSV file with N data rows and an optional header row,
`count_csv_rows` returns N (+1 if a header is present): parsing a serialised
table — whose fields may contain literal newlines, all quoted — yields one
logical row per CSV record, so the count equals the number of records and
embedded newlines never inflate it. -/
theorem count_csv_rows_one_per_record (rows : List CsvRecord) :
    csvParse (writeCsv rows) = rows ∧ count_csv_rows (writeCsv rows) = rows.length :=
  ⟨csvParse_writeCsv rows, by simp [count_csv_rows, csvParse_writeCsv]⟩

/-! ### The splitter's per-row classifier (claim C3) -/

/-- C3: the splitter's per-row classifier returns `"empty"` when the value is
not a string or is empty/whitespace after trimming; otherwise `"unknown"`
when detection fails (throws); otherwise the detected language code — so
per-row detection failures never abort processing (the classifier is total). -/
theorem detect_lang_safe_cases (detect : V → Option V) :
    detect_lang_safe detect none = "empty".data
    ∧ (∀ s : V, pyStrip s = [] → detect_lang_safe detect (some s) = "empty".data)
    ∧ (∀ s : V, pyStrip s ≠ [] → detect s = none →
        detect_lang_safe detect (some s) = "unknown".data)
    ∧ (∀ (s code : V), pyStrip s ≠ [] → detect s = some code →
        detect_lang_safe detect (some s) = code) := by
  refine ⟨rfl, ?_, ?_, ?_⟩
  · intro s h; simp [detect_lang_safe, h]
  · intro s h hd; simp [detect_lang_safe, h, hd]
  · intro s code h hd; simp [detect_lang_safe, h, hd]

/-- Witness for C3 at concrete inputs: a whitespace string classifies as
`"empty"`, and a non-blank string on which detection throws classifies as
`"unknown"`. -/
theorem detect_lang_safe_cases_witness :
    pyStrip " \t ".data = [] ∧ pyStrip "xy".data ≠ []
    ∧ detect_lang_safe (fun _ => none) (some " \t ".data) = "empty".data
    ∧ detect_lang_safe (fun _ => none) (some "xy".data) = "unknown".data :=
  ⟨by decide, by decide,
    (detect_lang_safe_cases (fun _ => none)).2.1 " \t ".data (by decide),
    (detect_lang_safe_cases (fun _ => none)).2.2.1 "xy".data (by decide) rfl⟩

/-! ### The splitter's partition (claim C2) -/

lemma setCol_of_not_mem {r : Row} {col : V} (c : Cell) (h : col ∉ rowKeys r) :
    setCol r col c = r ++ [(col, c)] := by
  simp [setCol, h]

lemma find?_eq_none_of_not_mem {r : Row} {col : V} (h : col ∉ rowKeys r) :
    r.find? (fun p => p.1 == col) = none := by
  rw [List.find?_eq_none]
  intro p hp
  simp only [beq_iff_eq]
  intro hcontra
  exact h (hcontra ▸ List.mem_map_of_mem Prod.fst hp)

lemma getCell_append_single {r : Row} {col : V} (c : Cell) (h : col ∉ rowKeys r) :
    getCell (r ++ [(col, c)]) col = c := by
  unfold getCell
  rw [List.find?_append, find?_eq_none_of_not_mem h]
  simp

lemma dropCol_append_single {r : Row} {col : V} (c : Cell) (h : col ∉ rowKeys r) :
    dropCol (r ++ [(col, c)]) col = r := by
  unfold dropCol
  rw [List.filter_append]
  have h1 : List.filter (fun p => p.1 != col) r = r := by
    rw [List.filter_eq_self]
    intro p hp
    simp only [bne_iff_ne, ne_eq]
    intro hcontra
    exact h (hcontra ▸ List.mem_map_of_mem Prod.fst hp)
  rw [h1]
  simp

/-- Tagging each row with its label, filtering on the tag and dropping the
tag is the same as filtering the original rows on the label, provided no row
already carries the tag column. -/
lemma tagged_filter_eq (detect : V → Option V) (col : V) (q : Cell → Bool) :
    ∀ rows : List Row, (∀ r ∈ rows, langCol ∉ rowKeys r) →
      ((rows.map (fun r =>
          setCol r langCol (some (detect_lang_safe detect (getCell r col))))).filter
        (fun r => q (getCell r langCol))).map (fun r => dropCol r langCol)
      = rows.filter (fun r => q (some (rowLabel detect col r))) := by
  intro rows
  induction rows with
  | nil => intro _; rfl
  | cons r rows ih =>
      intro h
      have hr : langCol ∉ rowKeys r := h r (List.mem_cons_self r rows)
      have hrest : ∀ r' ∈ rows, langCol ∉ rowKeys r' :=
        fun r' hr' => h r' (List.mem_cons_of_mem r hr')
      simp only [List.map_cons, List.filter_cons]
      rw [setCol_of_not_mem _ hr, getCell_append_single _ hr]
      by_cases hq : q (some (detect_lang_safe detect (getCell r col))) = true
      · simp only [rowLabel, hq, if_pos]
        simp only [List.map_cons]
        rw [dropCol_append_single _ hr, ih hrest]
        rfl
      · simp only [rowLabel] at hq ⊢
        simp only [hq]
        simp only [if_neg, Bool.false_eq_true, not_false_eq_true, ite_false]
        exact ih hrest

/-- A triple of mutually exclusive, jointly exhaustive predicates splits the
occurrence count of every element. -/
lemma count_filter_partition {α : Type} [BEq α] [LawfulBEq α] (p1 p2 p3 : α → Bool)
    (h : ∀ a, (p1 a = true ∧ p2 a = false ∧ p3 a = false)
        ∨ (p1 a = false ∧ p2 a = true ∧ p3 a = false)
        ∨ (p1 a = false ∧ p2 a = false ∧ p3 a = true)) :
    ∀ (l : List α) (r : α),
      (l.filter p1).count r + (l.filter p2).count r + (l.filter p3).count r = l.count r := by
  intro l
  induction l with
  | nil => intro r; rfl
  | cons a l ih =>
      intro r
      have H := ih r
      rcases h a with ⟨h1, h2, h3⟩ | ⟨h1, h2, h3⟩ | ⟨h1, h2, h3⟩ <;>
        by_cases hra : r = a <;>
        simp [List.filter_cons, List.count_cons, h1, h2, h3, hra] at H ⊢ <;>
        omega

/-- C2: for every input frame accepted by the splitter (designated column
present) whose rows do not already carry the reserved `lang` column, every
input row goes to exactly one of the three outputs — each output is the
filter of the input by its label predicate, and the multiset of rows is
partitioned (counts add up) — and the transient `lang` column appears in no
output row. -/
theorem split_by_language_partition (detect : V → Option V) (col : V) (f : Frame)
    (hcol : col ∈ f.cols) (hlang : ∀ r ∈ f.rows, langCol ∉ rowKeys r) :
    ∃ dfIt dfOther dfEmpty,
      split_by_language detect col f = some (dfIt, dfOther, dfEmpty)
      ∧ dfIt = f.rows.filter (fun r => rowLabel detect col r == itLabel)
      ∧ dfOther = f.rows.filter (fun r =>
          rowLabel detect col r != itLabel && rowLabel detect col r != emptyLabel)
      ∧ dfEmpty = f.rows.filter (fun r => rowLabel detect col r == emptyLabel)
      ∧ (∀ r : Row, dfIt.count r + dfOther.count r + dfEmpty.count r = f.rows.count r)
      ∧ (∀ r ∈ dfIt, langCol ∉ rowKeys r)
      ∧ (∀ r ∈ dfOther, langCol ∉ rowKeys r)
      ∧ (∀ r ∈ dfEmpty, langCol ∉ rowKeys r) := by
  have hIt := tagged_filter_eq detect col (fun c => c == some itLabel) f.rows hlang
  have hOther := tagged_filter_eq detect col
    (fun c => c != some itLabel && c != some emptyLabel) f.rows hlang
  have hEmpty := tagged_filter_eq detect col (fun c => c == some emptyLabel) f.rows hlang
  have hex : ∃ dfIt dfOther dfEmpty,
      split_by_language detect col f = some (dfIt, dfOther, dfEmpty) := by
    simp only [split_by_language, if_pos hcol]
    exact ⟨_, _, _, rfl⟩
  obtain ⟨dfIt, dfOther, dfEmpty, hsplit⟩ := hex
  have hsplit' := hsplit
  simp only [split_by_language, if_pos hcol, Option.some.injEq, Prod.mk.injEq] at hsplit'
  obtain ⟨e1, e2, e3⟩ := hsplit'
  subst e1
  subst e2
  subst e3
  refine ⟨_, _, _, hsplit, hIt, hOther, hEmpty, ?_, ?_, ?_, ?_⟩
  · intro r
    rw [hIt, hOther, hEmpty]
    refine count_filter_partition _ _ _ ?_ f.rows r
    intro a
    have hne : itLabel ≠ emptyLabel := by decide
    by_cases h1 : rowLabel detect col a = itLabel
    · simp [h1, hne]
    · by_cases h2 : rowLabel detect col a = emptyLabel
      · have hne' : ¬ emptyLabel = itLabel := fun h => hne h.symm
        simp [h1, h2, hne']
      · simp [h1, h2]
  · intro r hr
    rw [hIt] at hr
    exact hlang r (List.mem_of_mem_filter hr)
  · intro r hr
    rw [hOther] at hr
    exact hlang r (List.mem_of_mem_filter hr)
  · intro r hr
    rw [hEmpty] at hr
    exact hlang r (List.mem_of_mem_filter hr)

/-- Witness for C2: the splitter succeeds on a concrete frame satisfying the
hypotheses (column present, no reserved `lang` column). -/
theorem split_by_language_partition_witness :
    (split_by_language (fun s => if s = "Ciao mondo".data then some "it".data else none)
      "description".data
      ⟨["description".data],
        [[("description".data, some "Ciao mondo".data)],
         [("description".data, some "Hello".data)],
         [("description".data, some "   ".data)]]⟩).isSome = true := by
  obtain ⟨dfIt, dfOther, dfEmpty, h, _⟩ :=
    split_by_language_partition
      (fun s => if s = "Ciao mondo".data then some "it".data else none)
      "description".data
      ⟨["description".data],
        [[("description".data, some "Ciao mondo".data)],
         [("description".data, some "Hello".data)],
         [("description".data, some "   ".data)]]⟩
      (by decide) (by decide)
  rw [h]
  rfl

/-! ### The scan of `extract_distinct_values` (claims C4 and C10) -/

lemma head?_dropWhile (p : Char → Bool) :
    ∀ (l : List Char) (c : Char), (l.dropWhile p).head? = some c → p c = false := by
  intro l
  induction l with
  | nil => intro c h; simp at h
  | cons a l ih =>
      intro c h
      rw [List.dropWhile_cons] at h
      by_cases hp : p a
      · rw [if_pos hp] at h; exact ih c h
      · rw [if_neg hp] at h
        simp at h
        rw [← h]
        exact Bool.of_not_eq_true hp

lemma dropWhile_eq_self_of_head (p : Char → Bool) (l : List Char)
    (h : ∀ c, l.head? = some c → p c = false) : l.dropWhile p = l := by
  cases l with
  | nil => rfl
  | cons a l =>
      rw [List.dropWhile_cons, if_neg]
      intro hp
      exact absurd (h a rfl) (by simp [hp])

/-- `str.strip()` is idempotent. -/
lemma pyStrip_idem (s : V) : pyStrip (pyStrip s) = pyStrip s := by
  unfold pyStrip
  set p := pyIsSpace
  set u := s.dropWhile p with hu
  set w := u.reverse.dropWhile p with hw
  have hwhead : ∀ c, w.head? = some c → p c = false := head?_dropWhile p u.reverse
  have hwrev : ∀ c, w.reverse.head? = some c → p c = false := by
    intro c hc
    have hsuff : w <:+ u.reverse := hw ▸ List.dropWhile_suffix p
    have hpre : w.reverse <+: u := by
      have := List.reverse_prefix.mpr hsuff
      simpa using this
    obtain ⟨t, ht⟩ := hpre
    have huhead : u.head? = some c := by
      rw [← ht]
      cases hwr : w.reverse with
      | nil => rw [hwr] at hc; simp at hc
      | cons a l => rw [hwr] at hc; simp at hc; simp [hwr, ← hc]
    exact head?_dropWhile p s c (hu ▸ huhead)
  rw [dropWhile_eq_self_of_head p w.reverse hwrev]
  rw [List.reverse_reverse, dropWhile_eq_self_of_head p w hwhead]

/-- The loop body in terms of the kept value of the cell. -/
lemma scanStep_eq (acc : List V × List (V × Nat)) (cell : Cell) :
    scanStep acc cell
      = match kvF cell with
        | none => acc
        | some t => (addSet acc.1 t, incr acc.2 t) := by
  cases cell with
  | none => rfl
  | some s =>
      by_cases hs : s = []
      · subst hs; rfl
      · simp only [scanStep, kvF, if_neg hs]
        by_cases ht : pyStrip s = [] <;> simp [ht]

/-- The scan is the fold of the insertion step over the kept values. -/
lemma scan_foldl : ∀ (cells : List Cell) (acc : List V × List (V × Nat)),
    cells.foldl scanStep acc
      = (cells.filterMap kvF).foldl (fun a t => (addSet a.1 t, incr a.2 t)) acc := by
  intro cells
  induction cells with
  | nil => intro acc; rfl
  | cons cell cells ih =>
      intro acc
      rw [List.foldl_cons, List.filterMap_cons, scanStep_eq]
      cases hkv : kvF cell with
      | none => simpa using ih acc
      | some t => simpa using ih (addSet acc.1 t, incr acc.2 t)

/-- A fold of a componentwise step splits into two folds. -/
lemma foldl_pair_split : ∀ (ts : List V) (d : List V) (c : List (V × Nat)),
    ts.foldl (fun a t => (addSet a.1 t, incr a.2 t)) (d, c)
      = (ts.foldl addSet d, ts.foldl incr c) := by
  intro ts
  induction ts with
  | nil => intro d c; rfl
  | cons t ts ih => intro d c; simpa using ih (addSet d t) (incr c t)

lemma mem_addSet {x v : V} {l : List V} : x ∈ addSet l v ↔ x ∈ l ∨ x = v := by
  unfold addSet
  by_cases h : v ∈ l
  · simp only [if_pos h]
    constructor
    · exact Or.inl
    · rintro (hx | rfl) <;> assumption
  · simp [if_neg h]

lemma nodup_addSet {l : List V} (v : V) (h : l.Nodup) : (addSet l v).Nodup := by
  unfold addSet
  by_cases hv : v ∈ l
  · simpa [if_pos hv]
  · simp only [if_neg hv, List.nodup_append]
    refine ⟨h, List.nodup_singleton v, ?_⟩
    intro x hx
    simp only [List.mem_singleton]
    intro hxv
    exact hv (hxv ▸ hx)

lemma mem_foldl_addSet {x : V} : ∀ {ts d : List V},
    x ∈ ts.foldl addSet d ↔ x ∈ d ∨ x ∈ ts := by
  intro ts
  induction ts with
  | nil => intro d; simp
  | cons t ts ih =>
      intro d
      rw [List.foldl_cons, ih]
      rw [mem_addSet]
      simp only [List.mem_cons]
      tauto

lemma nodup_foldl_addSet : ∀ {ts d : List V}, d.Nodup → (ts.foldl addSet d).Nodup := by
  intro ts
  induction ts with
  | nil => intro d h; exact h
  | cons t ts ih => intro d h; exact ih (nodup_addSet t h)

/-- Incrementing the counter touches its key list exactly like a set
insertion. -/
lemma keys_incr : ∀ (vc : List (V × Nat)) (v : V),
    (incr vc v).map Prod.fst = addSet (vc.map Prod.fst) v := by
  intro vc
  induction vc with
  | nil => intro v; simp [incr, addSet]
  | cons p rest ih =>
      intro v
      obtain ⟨k, n⟩ := p
      by_cases hk : k = v
      · subst hk
        simp [incr, addSet]
      · simp only [incr, if_neg hk, List.map_cons, ih]
        unfold addSet
        by_cases hv : v ∈ rest.map Prod.fst
        · simp [hv, hk, Ne.symm hk]
        · simp [hv, hk, Ne.symm hk]

lemma keys_foldl_incr : ∀ (ts : List V) (c : List (V × Nat)),
    (ts.foldl incr c).map Prod.fst = ts.foldl addSet (c.map Prod.fst) := by
  intro ts
  induction ts with
  | nil => intro c; rfl
  | cons t ts ih => intro c; rw [List.foldl_cons, List.foldl_cons, ih, keys_incr]

/-- The two components of the scan, as folds over the kept values. -/
lemma extractScan_eq (headers : List V) (records : List (List V)) (col : V) :
    extractScan headers records col
      = ((keptVals headers records col).foldl addSet [],
         (keptVals headers records col).foldl incr []) := by
  unfold extractScan scanCells keptVals
  rw [scan_foldl, foldl_pair_split]

/-- Every kept value is already trimmed and non-empty. -/
lemma keptVals_trimmed {headers : List V} {records : List (List V)} {col : V}
    {t : V} (ht : t ∈ keptVals headers records col) : pyStrip t = t ∧ t ≠ [] := by
  unfold keptVals at ht
  obtain ⟨cell, _, hkv⟩ := List.mem_filterMap.mp ht
  cases cell with
  | none => simp [kvF] at hkv
  | some s =>
      simp only [kvF] at hkv
      by_cases hs : pyStrip s = []
      · rw [if_pos hs] at hkv; cases hkv
      · rw [if_neg hs] at hkv
        injection hkv with hkv
        subst hkv
        exact ⟨pyStrip_idem s, hs⟩

/-- C4: with a valid column name, extraction succeeds; the reported
`Total distinct values` is the same with and without `--count` and equals the
cardinality of the set of whitespace-trimmed non-empty values of the column;
blank values are excluded from the distinct set and the counter only counts
members of the distinct set. -/
theorem extract_total_distinct (headers : List V) (records : List (List V)) (col : V)
    (hcol : col ∈ headers) :
    extract_distinct_values headers records col
        = (some (extractScan headers records col), [])
    ∧ (∀ c s : Bool,
        (buildOutputLines col c s (extractScan headers records col).1
            (extractScan headers records col).2).get? 1
          = some (OutLine.total (extractScan headers records col).1.length))
    ∧ (extractScan headers records col).1.Nodup
    ∧ (∀ t, t ∈ (extractScan headers records col).1 ↔ t ∈ keptVals headers records col)
    ∧ (extractScan headers records col).1.length
        = (keptVals headers records col).toFinset.card
    ∧ (∀ t ∈ (extractScan headers records col).1, pyStrip t = t ∧ t ≠ [])
    ∧ (extractScan headers records col).2.map Prod.fst
        = (extractScan headers records col).1 := by
  have hdv : (extractScan headers records col).1
      = (keptVals headers records col).foldl addSet [] := by rw [extractScan_eq]
  have hvc : (extractScan headers records col).2
      = (keptVals headers records col).foldl incr [] := by rw [extractScan_eq]
  have hmem : ∀ t, t ∈ (extractScan headers records col).1
      ↔ t ∈ keptVals headers records col := by
    intro t
    rw [hdv, mem_foldl_addSet]
    simp
  have hnodup : (extractScan headers records col).1.Nodup := by
    rw [hdv]; exact nodup_foldl_addSet List.nodup_nil
  refine ⟨by simp [extract_distinct_values, hcol], ?_, hnodup, hmem, ?_, ?_, ?_⟩
  · intro c s
    cases c <;> simp [buildOutputLines]
  · have hext : (extractScan headers records col).1.toFinset
        = (keptVals headers records col).toFinset := by
      ext t
      simp only [List.mem_toFinset]
      exact hmem t
    rw [← List.toFinset_card_of_nodup hnodup, hext]
  · intro t ht
    exact keptVals_trimmed ((hmem t).mp ht)
  · rw [hdv, hvc]
    simpa using keys_foldl_incr (keptVals headers records col) []

/-- Witness for C4 at a concrete file: column `"a"` with values
`"x"`, `" x "`, `"  "` has one distinct value. -/
theorem extract_total_distinct_witness :
    extract_distinct_values ["a".data] [["x".data], [" x ".data], ["  ".data]] "a".data
        = (some (extractScan ["a".data] [["x".data], [" x ".data], ["  ".data]] "a".data), [])
    ∧ (extractScan ["a".data] [["x".data], [" x ".data], ["  ".data]] "a".data).1.length
        = (keptVals ["a".data] [["x".data], [" x ".data], ["  ".data]] "a".data).toFinset.card :=
  ⟨(extract_total_distinct ["a".data] [["x".data], [" x ".data], ["  ".data]] "a".data
      (by decide)).1,
   (extract_total_distinct ["a".data] [["x".data], [" x ".data], ["  ".data]] "a".data
      (by decide)).2.2.2.2.1⟩

/-- C10: when a data row has fewer fields than the header, `DictReader`
supplies `None` for the target column, and the scan skips the row without
failing (the step is total), contributing nothing to the distinct values or
the counts. -/
theorem ragged_row_skipped (headers : List V) (col : V) (shortRec : List V)
    (hshort : shortRec.length ≤ headers.findIdx (fun h => h == col)) :
    dictGet headers shortRec col = none
    ∧ ∀ rs₁ rs₂ : List (List V),
        extractScan headers (rs₁ ++ shortRec :: rs₂) col
          = extractScan headers (rs₁ ++ rs₂) col := by
  have hnone : dictGet headers shortRec col = none := by
    unfold dictGet
    exact List.get?_eq_none.mpr hshort
  refine ⟨hnone, ?_⟩
  intro rs₁ rs₂
  unfold extractScan scanCells
  rw [List.map_append, List.map_append, List.map_cons]
  rw [List.foldl_append, List.foldl_append, List.foldl_cons, hnone]
  rfl

/-- Witness for C10: header `[a, b]` and the one-field row `[x]` — the `b`
value is missing; the scan over the rows with and without the ragged row
agrees. -/
theorem ragged_row_skipped_witness :
    dictGet ["a".data, "b".data] ["x".data] "b".data = none
    ∧ extractScan ["a".data, "b".data] ([["x".data, "y".data]] ++ ["x".data] :: []) "b".data
        = extractScan ["a".data, "b".data] ([["x".data, "y".data]] ++ []) "b".data := by
  have h := ragged_row_skipped ["a".data, "b".data] "b".data ["x".data] (by decide)
  exact ⟨h.1, h.2 [["x".data, "y".data]] []⟩

/-! ### Ordering of the `--count` output (claim C6)

`most_common()` is a stable sort by non-increasing count; stability means the
elements of every count class keep their insertion order.  CPython's `sorted`
is stable, so the model's insertion sort is the right embedding. -/

instance : IsTotal (V × Nat) keyLe := ⟨fun a b => le_total a.1 b.1⟩

instance : IsTrans (V × Nat) keyLe := ⟨fun _ _ _ h₁ h₂ => le_trans h₁ h₂⟩

lemma orderedInsert_filter_self (a : V × Nat) (n : Nat) (ha : a.2 = n) :
    ∀ s : List (V × Nat),
      (s.orderedInsert countGe a).filter (fun p => p.2 == n)
        = a :: s.filter (fun p => p.2 == n) := by
  intro s
  induction s with
  | nil => simp [List.orderedInsert, ha]
  | cons b s ih =>
      by_cases hab : countGe a b
      · rw [List.orderedInsert_of_le countGe s hab]
        simp [List.filter_cons, ha]
      · simp only [List.orderedInsert, if_neg hab]
        have hb : ¬ b.2 = n := by
          unfold countGe at hab
          omega
        simp only [List.filter_cons]
        simp [hb, ih]

lemma orderedInsert_filter_other (a : V × Nat) (n : Nat) (ha : a.2 ≠ n) :
    ∀ s : List (V × Nat),
      (s.orderedInsert countGe a).filter (fun p => p.2 == n)
        = s.filter (fun p => p.2 == n) := by
  intro s
  induction s with
  | nil => simp [List.orderedInsert, ha]
  | cons b s ih =>
      by_cases hab : countGe a b
      · rw [List.orderedInsert_of_le countGe s hab]
        simp [List.filter_cons, ha]
      · simp only [List.orderedInsert, if_neg hab]
        simp only [List.filter_cons]
        rw [ih]

/-- Stability of `most_common()`: each count class keeps its original
(insertion) order. -/
lemma mostCommon_filter_count (vc : List (V × Nat)) (n : Nat) :
    (mostCommon vc).filter (fun p => p.2 == n) = vc.filter (fun p => p.2 == n) := by
  unfold mostCommon
  induction vc with
  | nil => rfl
  | cons a vc ih =>
      show ((vc.insertionSort countGe).orderedInsert countGe a).filter _ = _
      by_cases ha : a.2 = n
      · rw [orderedInsert_filter_self a n ha, ih]
        simp [List.filter_cons, ha]
      · rw [orderedInsert_filter_other a n ha, ih]
        simp [List.filter_cons, ha]

/-- C6: with `--count` and without `--sort`, `main` lists the value/count
pairs in non-increasing order of count, as a permutation of the counter, with
each count class in insertion order (= first-seen order, since the counter's
keys are accumulated in first-seen order); with `--count --sort` the pairs
are a permutation ordered alphabetically by value. -/
theorem count_output_ordering (headers : List V) (records : List (List V)) (col : V)
    (_hcol : col ∈ headers) :
    (extractScan headers records col).2.map Prod.fst = (extractScan headers records col).1
    ∧ mainResultsCount false (extractScan headers records col).2
        = mostCommon (extractScan headers records col).2
    ∧ (mostCommon (extractScan headers records col).2).Perm
        (extractScan headers records col).2
    ∧ (mostCommon (extractScan headers records col).2).Pairwise countGe
    ∧ (∀ n, (mostCommon (extractScan headers records col).2).filter (fun p => p.2 == n)
        = (extractScan headers records col).2.filter (fun p => p.2 == n))
    ∧ mainResultsCount true (extractScan headers records col).2
        = sortByValue (extractScan headers records col).2
    ∧ (sortByValue (extractScan headers records col).2).Perm
        (extractScan headers records col).2
    ∧ (sortByValue (extractScan headers records col).2).Pairwise keyLe := by
  refine ⟨?_, rfl, ?_, ?_, ?_, rfl, ?_, ?_⟩
  · rw [extractScan_eq]
    simpa using keys_foldl_incr (keptVals headers records col) []
  · exact List.perm_insertionSort countGe _
  · exact List.sorted_insertionSort countGe _
  · exact mostCommon_filter_count _
  · exact List.perm_insertionSort keyLe _
  · exact List.sorted_insertionSort keyLe _

/-- Witness for C6 on a concrete file (column `a`, values
`y, x, y` → counter `[(y, 2), (x, 1)]`): `most_common` keeps the
non-increasing count order and `--sort` produces alphabetical order. -/
theorem count_output_ordering_witness :
    mainResultsCount false
        (extractScan ["a".data] [["y".data], ["x".data], ["y".data]] "a".data).2
      = mostCommon (extractScan ["a".data] [["y".data], ["x".data], ["y".data]] "a".data).2
    ∧ (mostCommon
        (extractScan ["a".data] [["y".data], ["x".data], ["y".data]] "a".data).2).Pairwise
        countGe :=
  ⟨(count_output_ordering ["a".data] [["y".data], ["x".data], ["y".data]] "a".data
      (by decide)).2.1,
   (count_output_ordering ["a".data] [["y".data], ["x".data], ["y".data]] "a".data
      (by decide)).2.2.2.1⟩

/-! ### Invalid column names (claim C7) -/

/-- C7: requesting a column absent from the header makes `main` exit with
code 1, write no output file even when `--output` was given, and print the
requested name, the first at-most-10 available column names and, when more
than 10 exist, how many more. -/
theorem invalid_column_fails (countFlag sortFlag outputFile : Bool)
    (col : V) (headers : List V) (records : List (List V))
    (hcol : col ∉ headers) :
    mainRun countFlag sortFlag outputFile col headers records
      = { exitCode := 1, written := none,
          msgs := [Msg.colNotFound col, Msg.availableCols (headers.take 10)]
            ++ (if headers.length > 10
                then [Msg.moreColumns (headers.length - 10)] else []) }
    ∧ (headers.take 10).length ≤ 10 := by
  constructor
  · unfold mainRun extract_distinct_values
    rw [if_neg hcol]
  · simp [List.length_take]

/-- Witness for C7: twelve columns, a missing column name — the first ten
columns are reported plus "2 more", the exit code is 1 and nothing is
written even though `--output` was requested. -/
theorem invalid_column_fails_witness :
    mainRun true false true "z".data
        ["a".data, "b".data, "c".data, "d".data, "e".data, "f".data,
         "g".data, "h".data, "i".data, "j".data, "k".data, "l".data] []
      = { exitCode := 1, written := none,
          msgs := [Msg.colNotFound "z".data,
            Msg.availableCols ["a".data, "b".data, "c".data, "d".data, "e".data,
              "f".data, "g".data, "h".data, "i".data, "j".data],
            Msg.moreColumns 2] } := by
  have h := (invalid_column_fails true false true "z".data
    ["a".data, "b".data, "c".data, "d".data, "e".data, "f".data,
     "g".data, "h".data, "i".data, "j".data, "k".data, "l".data] [] (by decide)).1
  rw [h]
  rfl

/-! ### `--list-columns` swallows read errors (claim C9) -/

/-- C9 (code bug): when reading the header fails under `--list-columns`,
`get_csv_headers` swallows the exception into `[]`, and `main` still prints
`Available columns (0 total):` and returns exit code 0 — not the non-zero
exit the spec requires for every error. -/
theorem list_columns_read_error_exits_zero :
    mainListColumns (.error ())
      = (0, [Msg.readHeadersError, Msg.columnsTotal 0]) := rfl

/-! ### File discovery (claim C8) -/

lemma pyMaxCtime_mem : ∀ (fs : List FileEnt) (f : FileEnt), pyMaxCtime f fs ∈ f :: fs := by
  intro fs
  induction fs with
  | nil => intro f; simp [pyMaxCtime]
  | cons g fs ih =>
      intro f
      have h1 : pyMaxCtime f (g :: fs) = pyMaxCtime (if f.ctime < g.ctime then g else f) fs :=
        rfl
      rw [h1]
      rcases List.mem_cons.mp (ih (if f.ctime < g.ctime then g else f)) with h | h
      · rw [h]
        by_cases hc : f.ctime < g.ctime <;> simp [hc]
      · exact List.mem_cons_of_mem _ (List.mem_cons_of_mem _ h)

lemma pyMaxCtime_ge : ∀ (fs : List FileEnt) (f : FileEnt),
    ∀ g ∈ f :: fs, g.ctime ≤ (pyMaxCtime f fs).ctime := by
  intro fs
  induction fs with
  | nil =>
      intro f g hg
      rcases List.mem_cons.mp hg with h | h
      · rw [h]; exact le_refl _
      · cases h
  | cons h fs ih =>
      intro f g hg
      have step_ge_f : f.ctime ≤ (if f.ctime < h.ctime then h else f).ctime := by
        by_cases hc : f.ctime < h.ctime
        · simp only [if_pos hc]; omega
        · simp only [if_neg hc]
          exact le_refl _
      have step_ge_h : h.ctime ≤ (if f.ctime < h.ctime then h else f).ctime := by
        by_cases hc : f.ctime < h.ctime
        · simp only [if_pos hc]
          exact le_refl _
        · simp only [if_neg hc]; omega
      have hres : ∀ g' ∈ (if f.ctime < h.ctime then h else f) :: fs,
          g'.ctime ≤ (pyMaxCtime (if f.ctime < h.ctime then h else f) fs).ctime :=
        ih (if f.ctime < h.ctime then h else f)
      have hstep_mem : (if f.ctime < h.ctime then h else f)
          ∈ (if f.ctime < h.ctime then h else f) :: fs := List.mem_cons_self _ _
      rcases List.mem_cons.mp hg with hgf | hg'
      · rw [hgf]
        exact le_trans step_ge_f (hres _ hstep_mem)
      · rcases List.mem_cons.mp hg' with hgh | hgfs
        · rw [hgh]
          exact le_trans step_ge_h (hres _ hstep_mem)
        · exact hres g (List.mem_cons_of_mem _ hgfs)

lemma findLoop_all_empty (glob : V → List FileEnt) :
    ∀ ps : List V, (∀ p ∈ ps, glob p = []) → findLoop glob ps = none := by
  intro ps
  induction ps with
  | nil => intro _; rfl
  | cons p ps ih =>
      intro h
      rw [findLoop, h p (List.mem_cons_self p ps)]
      exact ih (fun q hq => h q (List.mem_cons_of_mem p hq))

lemma findLoop_first_match (glob : V → List FileEnt) :
    ∀ (pre : List V) (p : V) (post : List V),
      (∀ q ∈ pre, glob q = []) → glob p ≠ [] →
      findLoop glob (pre ++ p :: post) = selectFromMatches (glob p) := by
  intro pre
  induction pre with
  | nil =>
      intro p post _ hp
      rw [List.nil_append, findLoop]
      cases hg : glob p with
      | nil => exact absurd hg hp
      | cons f fs => rfl
  | cons q pre ih =>
      intro p post hpre hp
      rw [List.cons_append, findLoop, hpre q (List.mem_cons_self q pre)]
      exact ih p post (fun q' hq' => hpre q' (List.mem_cons_of_mem q hq')) hp

/-- C8 (amended: the exclusion looks at the whole lowercased *path*, not just
the file name): discovery tries the ordered glob patterns and the first
pattern with any match wins; within its matches, files whose path contains
`test`/`sample` (case-insensitively) are excluded unless that empties the
candidates, in which case all matches are kept; the selected file is a
candidate of maximal creation time; if no pattern matches, no file is
found. -/
theorem find_catalog_product_file_spec (glob : V → List FileEnt) :
    ((∀ p ∈ searchPatterns, glob p = []) → find_catalog_product_file glob = none)
    ∧ (∀ (pre : List V) (p : V) (post : List V),
        searchPatterns = pre ++ p :: post →
        (∀ q ∈ pre, glob q = []) → glob p ≠ [] →
        find_catalog_product_file glob = selectFromMatches (glob p))
    ∧ (∀ files : List FileEnt, files ≠ [] →
        ∃ sel, selectFromMatches files = some sel
          ∧ sel ∈ (if files.filter notTestFile = []
                    then files else files.filter notTestFile)
          ∧ ∀ g ∈ (if files.filter notTestFile = []
                    then files else files.filter notTestFile),
              g.ctime ≤ sel.ctime) := by
  refine ⟨?_, ?_, ?_⟩
  · intro h
    exact findLoop_all_empty glob searchPatterns h
  · intro pre p post heq hpre hp
    unfold find_catalog_product_file
    rw [heq]
    exact findLoop_first_match glob pre p post hpre hp
  · intro files hne
    unfold selectFromMatches
    cases hfil : files.filter notTestFile with
    | cons g gs =>
        refine ⟨pyMaxCtime g gs, rfl, ?_, ?_⟩
        · rw [if_neg (by simp)]
          exact pyMaxCtime_mem gs g
        · intro x hx
          rw [if_neg (by simp)] at hx
          exact pyMaxCtime_ge gs g x hx
    | nil =>
        cases files with
        | nil => exact absurd rfl hne
        | cons f fs =>
            refine ⟨pyMaxCtime f fs, rfl, ?_, ?_⟩
            · rw [if_pos rfl]
              exact pyMaxCtime_mem fs f
            · intro x hx
              rw [if_pos rfl] at hx
              exact pyMaxCtime_ge fs f x hx

/-- Witness for C8 (amended): when no pattern matches anything, discovery
returns no file. -/
theorem find_catalog_product_file_spec_witness :
    find_catalog_product_file (fun _ => []) = none :=
  (find_catalog_product_file_spec (fun _ => [])).1 (fun _ _ => rfl)

/-- Counterexample to C8 as stated: two matches whose *names* are clean, but
one whose *path* contains `test` in a directory component.  The code (which
filters on the whole path) picks the older clean-path file; the name-based
reading of the claim would pick the newer one. -/
theorem find_catalog_product_file_name_counterexample :
    (pySubstr "test".data
        (pyLower (baseName "testdir/export/catalog_product_a.csv".data)) = false)
    ∧ (pySubstr "sample".data
        (pyLower (baseName "testdir/export/catalog_product_a.csv".data)) = false)
    ∧ find_catalog_product_file (fun p =>
        if p = "**/export/catalog_product*.csv".data then
          [⟨"testdir/export/catalog_product_a.csv".data, 10⟩,
           ⟨"ok/export/catalog_product_b.csv".data, 5⟩]
        else [])
      = some ⟨"ok/export/catalog_product_b.csv".data, 5⟩
    ∧ find_catalog_product_file_nameSpec (fun p =>
        if p = "**/export/catalog_product*.csv".data then
          [⟨"testdir/export/catalog_product_a.csv".data, 10⟩,
           ⟨"ok/export/catalog_product_b.csv".data, 5⟩]
        else [])
      = some ⟨"testdir/export/catalog_product_a.csv".data, 10⟩
    ∧ (⟨"ok/export/catalog_product_b.csv".data, 5⟩ : FileEnt)
        ≠ ⟨"testdir/export/catalog_product_a.csv".data, 10⟩ := by
  refine ⟨by decide, by decide, by decide, by decide, by decide⟩

end CsvKit
